import Mathlib

/-!
Verification of the correlation and resolution engine of
`src/audit/log_audit.py` (the audit daemon of this repository).

The Python source is shallowly embedded: pure string manipulation is
modelled on `List Char` (Python `str` operations restricted to their
ASCII behaviour, which is the case exercised by this program), the
persistence sink (the `audit_events` table) is a `List AuditRecord`,
the fallible existence query of `already_similar` is an
`Except Unit (List AuditRecord)` (the `error` case standing for the
caught DB exception), the identity cache (`recent_actions`) and the
pending-resolution registry (`pending`) are association lists with
Python-dict insertion-order semantics, and the resolution worker is a
step function whose interactions with the external metadata store are
abstracted as a per-iteration oracle.  Wall-clock time is a logical
clock: the worker's clock advances by `RESOLVE_INTERVAL` at the sleep
of each polling iteration.  Configuration constants take their source
defaults.
-/

namespace Audit

/-! ### Configuration constants (source defaults, `log_audit.py` lines 39-43) -/

def DEDUPE_SECONDS : Nat := 2

def CORRELATION_WINDOW : Int := 30

def RESOLVE_WAIT : Nat := 10

def RESOLVE_INTERVAL : Nat := 1

/-- `IGNORE_PATTERNS` of `log_audit.py` (lines 58-61). -/
def IGNORE_PATTERNS : List String :=
  ["/index.php/apps/richdocuments/wopi/settings",
   "/index.php/apps/richdocuments/wopi/thumbnail"]

/-! ### Python string primitives on `List Char` -/

/-- Boolean prefix test on char lists (Python `str.startswith`, and the
anchored step of `in` / `re` scanning). -/
def isPrefixB : List Char → List Char → Bool
  | [], _ => true
  | _ :: _, [] => false
  | a :: as, b :: bs => a == b && isPrefixB as bs

/-- Boolean substring test (Python `needle in haystack`). -/
def listContains (n : List Char) : List Char → Bool
  | [] => n.isEmpty
  | c :: t => isPrefixB n (c :: t) || listContains n t

/-- Python `str.lower`, ASCII. -/
def lowerL (l : List Char) : List Char := l.map Char.toLower

/-- Python `str.upper`, ASCII (used for `method.upper()`). -/
def pyUpper (s : String) : String := String.mk (s.data.map Char.toUpper)

/-- Python `str.lower` on a `String`. -/
def pyLower (s : String) : String := String.mk (lowerL s.data)

/-- Hexadecimal digit value, as accepted by `urllib.parse.unquote`. -/
def hexVal : Char → Option Nat
  | c =>
    if '0' ≤ c ∧ c ≤ '9' then some (c.toNat - '0'.toNat)
    else if 'a' ≤ c ∧ c ≤ 'f' then some (c.toNat - 'a'.toNat + 10)
    else if 'A' ≤ c ∧ c ≤ 'F' then some (c.toNat - 'A'.toNat + 10)
    else none

/-- `urllib.parse.unquote` restricted to single-byte escapes: each
`%xy` with two hex digits becomes the character of code `16*x+y`, any
other `%` is kept literally.  (Multi-byte UTF-8 escape sequences,
which this log pipeline does not rely on, are out of scope.) -/
def unquoteChars : List Char → List Char
  | [] => []
  | '%' :: a :: b :: rest =>
    match hexVal a, hexVal b with
    | some x, some y => Char.ofNat (16 * x + y) :: unquoteChars rest
    | _, _ => '%' :: unquoteChars (a :: b :: rest)
  | c :: t => c :: unquoteChars t

/-- Python `str.rstrip('/')`. -/
def rstripSlash (l : List Char) : List Char :=
  (l.reverse.dropWhile (fun c => c = '/')).reverse

/-- `normalize_resource` (`log_audit.py` lines 165-174): strip the
query string at the first `?`, percent-decode, strip trailing slashes.
The falsy guard `if not r: return r` is the empty-string case. -/
def normalize_resource (r : String) : String :=
  if r = "" then r
  else String.mk (rstripSlash (unquoteChars (r.data.takeWhile (fun c => c ≠ '?'))))

/-! ### `urllib.parse.urlparse` / `parse_qs` model (ASCII, as used by
`detect_event_type`).  Only the `path` and `query` components are
consumed by the source; scheme, netloc, fragment and params are
split off exactly as CPython's `urlsplit`/`_splitparams` do. -/

/-- Valid scheme character (`urllib.parse.scheme_chars`). -/
def schemeChar (c : Char) : Bool :=
  c.isAlpha || c.isDigit || c == '+' || c == '-' || c == '.'

/-- Drop a leading `scheme:` if present (CPython `urlsplit`: a
non-empty alphabetic-initial run of scheme characters before the
first `:`). -/
def splitScheme (l : List Char) : List Char :=
  let pre := l.takeWhile (fun c => c ≠ ':')
  if pre.length < l.length && !pre.isEmpty &&
      (match pre with | c :: _ => c.isAlpha | [] => false) && pre.all schemeChar
  then l.drop (pre.length + 1)
  else l

/-- Drop a leading `//netloc` if present; the remainder starts at the
first of `/`, `?`, `#` (CPython `_splitnetloc`). -/
def stripNetloc (l : List Char) : List Char :=
  if l.take 2 = ['/', '/'] then
    l.drop (2 + ((l.drop 2).takeWhile
      (fun c => c ≠ '/' && c ≠ '?' && c ≠ '#')).length)
  else l

/-- CPython `_splitparams`: strip a `;params` suffix from the last
path segment. -/
def splitParams (l : List Char) : List Char :=
  if l.contains '/' then
    let pre := l.length - (l.reverse.takeWhile (fun c => c ≠ '/')).length
    l.take pre ++ (l.drop pre).takeWhile (fun c => c ≠ ';')
  else l.takeWhile (fun c => c ≠ ';')

structure UrlParts where
  path : List Char
  query : List Char
deriving DecidableEq

/-- The `path`/`query` of `urllib.parse.urlparse` (fragment split
before query, as in CPython). -/
def urlPathQuery (l : List Char) : UrlParts :=
  let l1 := stripNetloc (splitScheme l)
  let l2 := l1.takeWhile (fun c => c ≠ '#')
  let path0 := l2.takeWhile (fun c => c ≠ '?')
  let query := (l2.dropWhile (fun c => c ≠ '?')).drop 1
  ⟨splitParams path0, query⟩

/-- Python `str.split('&')`. -/
def splitOnAmp : List Char → List (List Char)
  | [] => [[]]
  | c :: t =>
    if c = '&' then [] :: splitOnAmp t
    else
      match splitOnAmp t with
      | [] => [[c]]
      | p :: ps => (c :: p) :: ps

/-- `+` to space, as `parse_qsl` applies to names. -/
def replacePlus (l : List Char) : List Char :=
  l.map fun c => if c = '+' then ' ' else c

/-- The keys of `urllib.parse.parse_qs(query)` with default options:
empty pairs and pairs without `=` or with an empty value are dropped
(`keep_blank_values=False`), names are `+`-decoded and unquoted. -/
def parseQsKeys (q : List Char) : List (List Char) :=
  (splitOnAmp q).filterMap fun pair =>
    if pair.isEmpty then none
    else
      let name := pair.takeWhile (fun c => c ≠ '=')
      if name.length = pair.length then none
      else if (pair.drop (name.length + 1)).isEmpty then none
      else some (unquoteChars (replacePlus name))

/-- `",".join(keys)` (Python `str.join`). -/
def joinComma : List (List Char) → List Char
  | [] => []
  | [k] => k
  | k :: k2 :: ks => k ++ ',' :: joinComma (k2 :: ks)

/-! ### `detect_event_type` (`log_audit.py` lines 176-193) -/

/-- The extensions of `FILE_EXT_RE` (line 47). -/
def fileExts : List (List Char) :=
  ["pdf", "doc", "docx", "xls", "xlsx", "ppt", "pptx", "txt", "odt",
   "ods", "jpg", "jpeg", "png", "zip", "rar", "7z"].map String.data

/-- Anchored match of `FILE_EXT_RE` at the head of `l`: a dot, an
extension (case-insensitively), then end of string or `?`. -/
def extAt (l : List Char) : Bool :=
  match l with
  | '.' :: rest =>
    fileExts.any fun e =>
      isPrefixB e (lowerL rest) &&
        (let after := rest.drop e.length
         after.isEmpty || after.headI == '?')
  | _ => false

/-- `FILE_EXT_RE.search`: some position matches. -/
def fileExtSearch : List Char → Bool
  | [] => false
  | c :: t => extAt (c :: t) || fileExtSearch t

/-- `up.path or resource`: `urlparse` path, falling back to the whole
resource when the path is empty. -/
def pathOf (resource : String) : List Char :=
  let p := (urlPathQuery resource.data).path
  if p.isEmpty then resource.data else p

def queryOf (resource : String) : List Char :=
  (urlPathQuery resource.data).query

def dlTok : List Char := "download".data

/-- The first clause of `detect_event_type`:
`'download' in path.lower() or 'download' in ",".join(qs.keys()).lower()`. -/
def downloadCond (resource : String) : Bool :=
  listContains dlTok (lowerL (pathOf resource)) ||
  listContains dlTok (lowerL (joinComma (parseQsKeys (queryOf resource))))

/-- `detect_event_type(method, status, resource)`. -/
def detect_event_type (method : String) (status : Int) (resource : String) : String :=
  let m := pyUpper method
  if downloadCond resource then "download"
  else if m == "PROPFIND" then "list"
  else if m == "GET" && status == 200 && fileExtSearch (pathOf resource) then "download"
  else if m == "GET" && status == 200 then "view"
  else "other"

/-! ### `canonical_key_for_resource` (`log_audit.py` lines 296-309) -/

inductive CanonicalKey where
  | fileId : Nat → CanonicalKey
  | resourceString : String → CanonicalKey
deriving DecidableEq

/-- Numeric value of a run of ASCII digits (Python `int`, which never
fails on a `\d+` match). -/
def digitsVal (l : List Char) : Nat :=
  l.foldl (fun a c => 10 * a + (c.toNat - '0'.toNat)) 0

/-- `re.search(pat + r'(\d+)' [+ anchor])`: leftmost occurrence of the
literal `pat` followed by at least one digit (and, when `anchor` is
given, that character right after the maximal digit run — the
backtracking-free reading of the greedy `\d+` before a literal). -/
def reSearchNum (pat : List Char) (anchor : Option Char) : List Char → Option Nat
  | [] => none
  | c :: t =>
    match
      (if isPrefixB pat (c :: t) then
        let rest := (c :: t).drop pat.length
        let d := rest.takeWhile Char.isDigit
        if d.isEmpty then none
        else
          match anchor with
          | none => some (digitsVal d)
          | some a => if (rest.drop d.length).headI == a then some (digitsVal d) else none
      else none) with
    | some n => some n
    | none => reSearchNum pat anchor t

/-- `canonical_key_for_resource`: normalize, then try `fileId=(\d+)`,
`/download/(\d+)`, `/wopi/files/(\d+)_` in order; first hit gives a
file-id key, otherwise the normalized string is the key. -/
def canonical_key_for_resource (resource : String) : CanonicalKey :=
  let res := normalize_resource resource
  match reSearchNum "fileId=".data none res.data with
  | some n => CanonicalKey.fileId n
  | none =>
    match reSearchNum "/download/".data none res.data with
    | some n => CanonicalKey.fileId n
    | none =>
      match reSearchNum "/wopi/files/".data (some '_') res.data with
      | some n => CanonicalKey.fileId n
      | none => CanonicalKey.resourceString res

/-- The `maybe_fid` component returned alongside the key. -/
def maybeFidOf : CanonicalKey → Option Nat
  | .fileId n => some n
  | .resourceString _ => none

/-! ### Events and the persistence sink -/

/-- A parsed access-log event (the dict built by `parse_apache_line`,
lines 405-416).  `username` is `none` when the auth field is `-`;
`size` is `none` when it is `-`. -/
structure Event where
  ts : Int
  username : Option String
  ip : String
  method : String
  resource : String
  status : Int
  size : Option Int
  ua : String
  referrer : String
  raw : String
deriving DecidableEq

/-- A row of `audit_events` as inserted by `_insert_event_db`. -/
structure AuditRecord where
  ts : Int
  username : Option String
  ip : String
  method : String
  original_resource : String
  resource : String
  object_id : Option Nat
  status : Int
  size : Option Int
  user_agent : String
  referrer : String
  raw_line : String
  event_type : String
deriving DecidableEq

/-- Python truthiness of the `object_id` value (`if object_id:`
— `None` and `0` are falsy). -/
def oidTruthy : Option Nat → Bool
  | none => false
  | some n => n != 0

/-- SQL `coalesce(username,'(unknown)')`. -/
def usernameCoalesce (u : Option String) : String := u.getD "(unknown)"

/-- Python `a or b` for an optional string (`resolved_path or orig`). -/
def pyOrStr (a : Option String) (b : String) : String :=
  match a with
  | some s => if s = "" then b else s
  | none => b

/-- Row predicate of the first dedupe query (`q`, lines 199-207):
same `object_id`, coalesced username, ip, method, and timestamps
within `DEDUPE_SECONDS`. -/
def similar_oid (r : AuditRecord) (object_id : Option Nat)
    (username : Option String) (ip method : String) (ts : Int) : Bool :=
  r.object_id == object_id &&
  usernameCoalesce r.username == usernameCoalesce username &&
  r.ip == ip && r.method == method &&
  decide ((r.ts - ts).natAbs ≤ DEDUPE_SECONDS)

/-- Row predicate of the second dedupe query (`q2`, lines 211-218):
same `resource` instead of `object_id`. -/
def similar_res (r : AuditRecord) (resource : String)
    (username : Option String) (ip method : String) (ts : Int) : Bool :=
  r.resource == resource &&
  usernameCoalesce r.username == usernameCoalesce username &&
  r.ip == ip && r.method == method &&
  decide ((r.ts - ts).natAbs ≤ DEDUPE_SECONDS)

/-- `already_similar` (lines 195-224).  The argument is the outcome of
querying the sink: `Except.error` is the raised-exception case, which
the source catches and turns into `False`.  When the query succeeds,
the first query runs only under a truthy `object_id`, and the second
(resource-based) query runs in every case, mirroring the source's
fall-through. -/
def already_similar (q : Except Unit (List AuditRecord)) (ts : Int)
    (username : Option String) (ip method resource : String)
    (object_id : Option Nat) : Bool :=
  match q with
  | .error _ => false
  | .ok sink =>
    (oidTruthy object_id &&
      sink.any fun r => similar_oid r object_id username ip method ts) ||
    (sink.any fun r => similar_res r resource username ip method ts)

/-- The row built by the `INSERT` of `_insert_event_db`
(lines 236-255). -/
def mkAuditRecord (ev : Event) (object_id : Option Nat)
    (resolved_path : Option String) : AuditRecord :=
  let orig := normalize_resource ev.resource
  { ts := ev.ts
    username := ev.username
    ip := ev.ip
    method := ev.method
    original_resource := orig
    resource := pyOrStr resolved_path orig
    object_id := object_id
    status := ev.status
    size := ev.size
    user_agent := ev.ua
    referrer := ev.referrer
    raw_line := ev.raw
    event_type := detect_event_type ev.method ev.status orig }

/-- `_insert_event_db` (lines 226-261) as a transition on the sink.
`dedupeRaises` selects the raised-exception outcome for the
`already_similar` existence check (its internal `try`/`except`); the
insert itself is modelled as succeeding (its own failure path returns
`False` with the sink unchanged and is orthogonal to the claims).
Returns the source's boolean result together with the new sink. -/
def _insert_event_db (ev : Event) (object_id : Option Nat)
    (resolved_path : Option String) (dedupeRaises : Bool)
    (sink : List AuditRecord) : Bool × List AuditRecord :=
  let orig := normalize_resource ev.resource
  if pyUpper ev.method = "PROPFIND" then (false, sink)
  else if already_similar (if dedupeRaises then Except.error () else Except.ok sink)
      ev.ts ev.username ev.ip ev.method (pyOrStr resolved_path orig) object_id then
    (false, sink)
  else (true, sink ++ [mkAuditRecord ev object_id resolved_path])

/-! ### Identity cache (`recent_actions`, lines 263-290) -/

/-- One entry of the `recent_actions` dict: key (resource), username,
observation timestamp. -/
structure CacheEntry where
  key : String
  user : String
  ts : Int
deriving DecidableEq

/-- Python dict assignment `m[k] = (u, ts)`: replace in place the
first entry with that key, else append (insertion-order semantics). -/
def dictSet (m : List CacheEntry) (k u : String) (ts : Int) : List CacheEntry :=
  match m with
  | [] => [⟨k, u, ts⟩]
  | e :: t => if e.key = k then ⟨k, u, ts⟩ :: t else e :: dictSet t k u ts

/-- `add_recent_action(resource, user, ts)` (lines 266-274): falsy
resource or user is a no-op; otherwise upsert and prune every entry
strictly older than `now - CORRELATION_WINDOW`. -/
def add_recent_action (m : List CacheEntry) (resource : String)
    (user : Option String) (ts now : Int) : List CacheEntry :=
  if resource = "" || user.getD "" = "" then m
  else (dictSet m resource (user.getD "") ts).filter
    fun e => !decide (e.ts < now - CORRELATION_WINDOW)

/-- The fallback scan of `guess_username`: first non-expired entry
whose key contains or is contained in the queried resource. -/
def scanEntries (m : List CacheEntry) (resource : String) (now : Int) : Option String :=
  m.findSome? fun e =>
    if now - e.ts > CORRELATION_WINDOW then none
    else if listContains e.key.data resource.data || listContains resource.data e.key.data then
      some e.user
    else none

/-- `guess_username(resource)` (lines 276-290): exact-key lookup
first (returned only when within the window, otherwise fall through),
then the substring scan. -/
def guess_username (m : List CacheEntry) (resource : String) (now : Int) : Option String :=
  if resource = "" then none
  else
    match m.find? (fun e => e.key == resource) with
    | some e =>
      if now - e.ts ≤ CORRELATION_WINDOW then some e.user
      else scanEntries m resource now
    | none => scanEntries m resource now

/-! ### Pending-resolution registry (`pending`, lines 292-390) -/

structure PendingEntry where
  first_seen : Int
  last_seen : Int
  ev : Event
  object_id : Option Nat
deriving DecidableEq

/-- Registry state: the `pending` dict plus the running workers (one
per `t.start()` that has not yet reached its `finally` pop). -/
structure RegState where
  pending : List (CanonicalKey × PendingEntry)
  workers : List CanonicalKey
deriving DecidableEq

/-- The canonical key `schedule_resolution_and_insert` computes for an
event (it normalizes, and `canonical_key_for_resource` normalizes its
argument again, as the source does). -/
def keyOf (ev : Event) : CanonicalKey :=
  canonical_key_for_resource (normalize_resource ev.resource)

def ignoredResource (res : String) : Bool :=
  IGNORE_PATTERNS.any fun p => listContains p.data res.data

/-- `schedule_resolution_and_insert(ev)` (lines 311-390) restricted to
its registry effect: ignore-listed resources are dropped; an existing
pending key only has its `last_seen` refreshed; a new key gets exactly
one pending entry (carrying the event and any extracted id) and
exactly one started worker. -/
def schedule_resolution_and_insert (s : RegState) (ev : Event) (now : Int) : RegState :=
  if ignoredResource (normalize_resource ev.resource) then s
  else
    match s.pending.find? (fun kv => kv.1 == keyOf ev) with
    | some _ =>
      { s with pending := s.pending.map fun kv =>
          if kv.1 = keyOf ev then (kv.1, { kv.2 with last_seen := now }) else kv }
    | none =>
      { pending := s.pending ++ [(keyOf ev, ⟨now, now, ev, maybeFidOf (keyOf ev)⟩)]
        workers := s.workers ++ [keyOf ev] }

/-- The `finally` block of the worker (lines 384-386): on termination
the worker pops its key from `pending`; the model removes the worker
and its entry in one transition (the pop is the worker's final act).
A finish for a key with no running worker is a no-op. -/
def finishWorker (s : RegState) (key : CanonicalKey) : RegState :=
  if key ∈ s.workers then
    { pending := s.pending.filter fun kv => decide (kv.1 ≠ key)
      workers := s.workers.erase key }
  else s

inductive RegOp where
  | schedule : Event → Int → RegOp
  | finish : CanonicalKey → RegOp

def regStep (s : RegState) : RegOp → RegState
  | .schedule ev now => schedule_resolution_and_insert s ev now
  | .finish key => finishWorker s key

/-- A run of the registry from the empty initial state. -/
def runOps (ops : List RegOp) : RegState :=
  ops.foldl regStep ⟨[], []⟩

/-! ### Resolution worker (lines 323-386) -/

/-- The per-iteration interactions of the worker with its environment:
the identity-cache guess, whether the DB block ran without raising,
the username the activity lookup produced, and the boolean results of
the two possible `_insert_event_db` calls of that iteration. -/
structure IterOracle where
  guess : Option String
  dbOk : Bool
  dbUname : Option String
  insertResolvedOk : Bool
  insertEarlyOk : Bool

inductive WorkerOutcome where
  | insertedResolved : Nat → WorkerOutcome
  | insertedEarly : Nat → WorkerOutcome
  | finalAttempt : Nat → Bool → WorkerOutcome
deriving DecidableEq

/-- `gu = guess_username(res); if gu: ev_local['username'] = gu`. -/
def guessUpdate (o : IterOracle) (uname : Option String) : Option String :=
  match o.guess with
  | some g => some g
  | none => uname

/-- Effect of the `try: with db_connect() ...` block on the carried
username: when the block runs without raising and the activity lookup
returns a name, it overwrites the username. -/
def dbUpdate (o : IterOracle) (u1 : Option String) : Option String :=
  if o.dbOk then
    match o.dbUname with
    | some d => some d
    | none => u1
  else u1

/-- The worker's polling loop (lines 328-366) and final best-effort
attempt (lines 367-383).  `now` starts at `0` with the deadline at
`wait`; the `time.sleep(RESOLVE_INTERVAL)` advances the clock.  The
loop body runs while `now ≤ wait`; a successful persist inside the
loop terminates the worker early, otherwise the deadline expires and
the single unconditional final insert attempt (result `finalOk`) is
made.  Every outcome is terminal. -/
def workerLoop (oracle : Nat → IterOracle) (wait : Nat) (finalOk : Bool)
    (iter now : Nat) (uname : Option String) : WorkerOutcome :=
  if now ≤ wait then
    if (oracle iter).dbOk && (oracle iter).dbUname.isSome &&
        (oracle iter).insertResolvedOk then
      WorkerOutcome.insertedResolved iter
    else if (dbUpdate (oracle iter) (guessUpdate (oracle iter) uname)).isSome &&
        (oracle iter).insertEarlyOk then
      WorkerOutcome.insertedEarly iter
    else
      workerLoop oracle wait finalOk (iter + 1) (now + RESOLVE_INTERVAL)
        (dbUpdate (oracle iter) (guessUpdate (oracle iter) uname))
  else WorkerOutcome.finalAttempt iter finalOk
termination_by wait + 1 - now
decreasing_by simp [RESOLVE_INTERVAL]; omega

/-- Number of loop-body executions recorded by an outcome. -/
def outIters : WorkerOutcome → Nat
  | .insertedResolved i => i + 1
  | .insertedEarly i => i + 1
  | .finalAttempt i _ => i

/-! ### Helper lemmas about the string primitives -/

theorem mk_data (s : String) : String.mk s.data = s := by
  cases s
  rfl

theorem takeWhile_eq_self_of {p : Char → Bool} :
    ∀ {l : List Char}, (∀ c ∈ l, p c = true) → l.takeWhile p = l := by
  intro l
  induction l with
  | nil => intro _; rfl
  | cons c t ih =>
    intro h
    have hc : p c = true := h c (List.mem_cons_self c t)
    have ht := ih fun x hx => h x (List.mem_cons_of_mem c hx)
    simp [List.takeWhile_cons, hc, ht]

theorem unquoteChars_of_no_percent :
    ∀ {l : List Char}, '%' ∉ l → unquoteChars l = l := by
  intro l
  induction l with
  | nil => intro _; rfl
  | cons c t ih =>
    intro h
    have ht : '%' ∉ t := fun hm => h (List.mem_cons_of_mem c hm)
    rw [unquoteChars.eq_def]
    split
    · rename_i heq
      exact (List.cons_ne_nil c t heq).elim
    · rename_i heq
      injection heq with h1 h2
      subst h1
      exact absurd (List.mem_cons_self _ _) h
    · rename_i heq
      injection heq with h1 h2
      rw [← h1, ← h2, ih ht]

theorem dropWhile_idem {p : Char → Bool} :
    ∀ (l : List Char), (l.dropWhile p).dropWhile p = l.dropWhile p := by
  intro l
  induction l with
  | nil => rfl
  | cons c t ih =>
    by_cases hc : p c = true
    · simp [List.dropWhile, hc, ih]
    · simp [List.dropWhile, hc]

theorem rstripSlash_idem (l : List Char) :
    rstripSlash (rstripSlash l) = rstripSlash l := by
  unfold rstripSlash
  rw [List.reverse_reverse, dropWhile_idem]

/-! ### Claim C4 -/

/-- Claim C4 counterexample: the claim asserts that an input of shape
`...?fileId=42` yields `FileId(42)`, but `canonical_key_for_resource`
normalizes first, and normalization strips everything from the first
literal `?`, so the `fileId=42` query is gone before any pattern is
tried and the key is the `ResourceString` of the stripped URL. -/
theorem canonical_key_query_counterexample :
    canonical_key_for_resource "/index.php/a?fileId=42" ≠ CanonicalKey.fileId 42 ∧
    canonical_key_for_resource "/index.php/a?fileId=42" =
      CanonicalKey.resourceString "/index.php/a" := by
  constructor
  · decide
  · decide

/-- Claim C4 (amended): the three id patterns are tried on the
NORMALIZED resource (query stripped at the first literal `?`,
percent-decoded, trailing slashes stripped), in the order `fileId=`,
`/download/<n>`, `/wopi/files/<n>_`, the first match giving
`FileId(n)` and no match giving `ResourceString(normalized)`.  A
`fileId=` remnant that survives normalization (e.g. percent-encoded
`%3FfileId=42`) yields `FileId(42)`; a plain `?fileId=42` query is
stripped and yields a `ResourceString` key. -/
theorem canonical_key_precedence_amended :
    canonical_key_for_resource "/index.php/apps/files/download/42?x=1" =
      CanonicalKey.fileId 42 ∧
    canonical_key_for_resource "/a%3FfileId=42" = CanonicalKey.fileId 42 ∧
    canonical_key_for_resource "/index.php/a?fileId=42" =
      CanonicalKey.resourceString "/index.php/a" ∧
    canonical_key_for_resource "/apps/richdocuments/wopi/files/42_abc" =
      CanonicalKey.fileId 42 ∧
    canonical_key_for_resource "/b/fileId=7/download/42" = CanonicalKey.fileId 7 ∧
    canonical_key_for_resource "/b/download/7/wopi/files/42_x" =
      CanonicalKey.fileId 7 ∧
    canonical_key_for_resource "/remote.php/dav/files/alice/report.txt" =
      CanonicalKey.resourceString "/remote.php/dav/files/alice/report.txt" ∧
    canonical_key_for_resource "/x/y/?q=1" = CanonicalKey.resourceString "/x/y" := by
  refine ⟨?_, ?_, ?_, ?_, ?_, ?_, ?_, ?_⟩ <;> decide

/-! ### Claim C7 -/

/-- Claim C7 counterexample: `normalize_resource` is not idempotent,
because percent-decoding can introduce a fresh `?` that the second
pass then treats as a query separator: `"a%3Fb"` normalizes to
`"a?b"`, which normalizes to `"a"`. -/
theorem normalize_not_idempotent :
    normalize_resource (normalize_resource "a%3Fb") ≠
      normalize_resource "a%3Fb" ∧
    normalize_resource "a%3Fb" = "a?b" ∧
    normalize_resource "a?b" = "a" := by
  refine ⟨?_, ?_, ?_⟩ <;> decide

/-- Claim C7 (amended): normalization is idempotent on every input
whose normalized form contains neither a `?` (which a second pass
would treat as a query separator) nor a `%` (which a second pass
might percent-decode further); decoding is the only source of either
character, so this is exactly the non-counterexample case. -/
theorem normalize_idempotent_amended (x : String)
    (h1 : '?' ∉ (normalize_resource x).data)
    (h2 : '%' ∉ (normalize_resource x).data) :
    normalize_resource (normalize_resource x) = normalize_resource x := by
  by_cases hx : x = ""
  · subst hx
    rfl
  · have hdef : normalize_resource x =
        String.mk (rstripSlash (unquoteChars (x.data.takeWhile (fun c => c ≠ '?')))) := by
      rw [normalize_resource, if_neg hx]
    rw [hdef] at h1 h2 ⊢
    by_cases hR0 : String.mk (rstripSlash (unquoteChars (x.data.takeWhile (fun c => c ≠ '?')))) = ""
    · rw [hR0]
      rfl
    · rw [normalize_resource, if_neg hR0]
      have hq : ∀ c ∈ rstripSlash (unquoteChars (x.data.takeWhile (fun c => c ≠ '?'))),
          (decide (c ≠ '?')) = true := by
        intro c hc
        simp only [decide_eq_true_eq]
        intro hcq
        exact h1 (hcq ▸ hc)
      rw [show (String.mk (rstripSlash (unquoteChars (x.data.takeWhile (fun c => c ≠ '?'))))).data
            = rstripSlash (unquoteChars (x.data.takeWhile (fun c => c ≠ '?'))) from rfl]
      rw [takeWhile_eq_self_of hq, unquoteChars_of_no_percent h2, rstripSlash_idem]

/-- Witness for the amended C7 at a concrete input. -/
theorem normalize_idempotent_amended_witness :
    normalize_resource (normalize_resource "/a/b/?x=1") =
      normalize_resource "/a/b/?x=1" :=
  normalize_idempotent_amended "/a/b/?x=1" (by decide) (by decide)

/-! ### Claim C8 -/

/-- Claim C8: for every event whose (uppercased) method is PROPFIND,
`_insert_event_db` returns `False` and leaves the sink unchanged —
the guard sits before the dedupe check and the insert, so no
`AuditRecord` is ever produced for a PROPFIND event, whichever worker
branch (early, resolved, or final best-effort: any `object_id`,
`resolved_path`, dedupe outcome and sink) attempts the persist. -/
theorem propfind_never_persisted (ev : Event) (object_id : Option Nat)
    (resolved_path : Option String) (dedupeRaises : Bool)
    (sink : List AuditRecord) (h : pyUpper ev.method = "PROPFIND") :
    _insert_event_db ev object_id resolved_path dedupeRaises sink = (false, sink) := by
  unfold _insert_event_db
  rw [if_pos h]

/-- Witness for C8: a concrete PROPFIND event against a non-empty
sink, with the method in lower case to exercise the `upper()`. -/
theorem propfind_never_persisted_witness :
    _insert_event_db
      ⟨0, some "alice", "10.0.0.1", "propfind", "/remote.php/dav/files/alice", 207,
        none, "ua", "-", "raw"⟩ (some 42) (some "/alice") false
      [mkAuditRecord
        ⟨0, some "alice", "10.0.0.1", "GET", "/remote.php/dav/files/alice", 200,
          none, "ua", "-", "raw0"⟩ none none] =
    (false,
      [mkAuditRecord
        ⟨0, some "alice", "10.0.0.1", "GET", "/remote.php/dav/files/alice", 200,
          none, "ua", "-", "raw0"⟩ none none]) :=
  propfind_never_persisted _ _ _ _ _ (by decide)

/-! ### Claim C9 -/

/-- Claim C9: the deduplicator fails open.  If the existence check
raises, `already_similar` returns `False` for every candidate, and
`_insert_event_db` — for any non-PROPFIND event — then proceeds past
the dedupe to attempt the insert rather than skipping: a failed
dedupe check can produce a duplicate row, never a lost one. -/
theorem dedupe_fails_open :
    (∀ (ts : Int) (username : Option String) (ip method resource : String)
        (object_id : Option Nat),
      already_similar (Except.error ()) ts username ip method resource object_id = false) ∧
    (∀ (ev : Event) (object_id : Option Nat) (resolved_path : Option String)
        (sink : List AuditRecord), pyUpper ev.method ≠ "PROPFIND" →
      _insert_event_db ev object_id resolved_path true sink =
        (true, sink ++ [mkAuditRecord ev object_id resolved_path])) := by
  constructor
  · intro ts username ip method resource object_id
    rfl
  · intro ev object_id resolved_path sink h
    unfold _insert_event_db
    rw [if_neg h]
    rfl

/-- Witness for C9: with the dedupe check raising, an event identical
to an already-present row is inserted again (a duplicate, not a lost
record). -/
theorem dedupe_fails_open_witness :
    _insert_event_db
      ⟨0, some "alice", "10.0.0.1", "GET", "/remote.php/dav/files/alice/r.pdf", 200,
        none, "ua", "-", "raw"⟩ (some 42) none true
      [mkAuditRecord
        ⟨0, some "alice", "10.0.0.1", "GET", "/remote.php/dav/files/alice/r.pdf", 200,
          none, "ua", "-", "raw"⟩ (some 42) none] =
    (true,
      [mkAuditRecord
        ⟨0, some "alice", "10.0.0.1", "GET", "/remote.php/dav/files/alice/r.pdf", 200,
          none, "ua", "-", "raw"⟩ (some 42) none,
       mkAuditRecord
        ⟨0, some "alice", "10.0.0.1", "GET", "/remote.php/dav/files/alice/r.pdf", 200,
          none, "ua", "-", "raw"⟩ (some 42) none]) :=
  dedupe_fails_open.2 _ _ _ _ (by decide)

/-! ### Claim C3 -/

/-- The claim's similarity notion, stated from the spec's words: the
existing row agrees with the candidate on object id when the
candidate has one (Python-truthy), otherwise on the resolved resource
string; on username with absent usernames coalesced to one sentinel;
on ip and method; and its timestamp is within `DEDUPE_SECONDS`. -/
def claimAgrees (r : AuditRecord) (ts : Int) (username : Option String)
    (ip method resource : String) (object_id : Option Nat) : Prop :=
  (if oidTruthy object_id then r.object_id = object_id else r.resource = resource) ∧
  usernameCoalesce r.username = usernameCoalesce username ∧
  r.ip = ip ∧ r.method = method ∧ (r.ts - ts).natAbs ≤ DEDUPE_SECONDS

instance (r : AuditRecord) (ts : Int) (username : Option String)
    (ip method resource : String) (object_id : Option Nat) :
    Decidable (claimAgrees r ts username ip method resource object_id) := by
  unfold claimAgrees
  infer_instance

theorem insert_skips_of_agrees (sink : List AuditRecord) (ev : Event)
    (object_id : Option Nat) (resolved_path : Option String) (r : AuditRecord)
    (hmem : r ∈ sink)
    (hagr : claimAgrees r ev.ts ev.username ev.ip ev.method
      (pyOrStr resolved_path (normalize_resource ev.resource)) object_id) :
    _insert_event_db ev object_id resolved_path false sink = (false, sink) := by
  obtain ⟨h1, h2, h3, h4, h5⟩ := hagr
  unfold _insert_event_db
  by_cases hp : pyUpper ev.method = "PROPFIND"
  · rw [if_pos hp]
  · rw [if_neg hp]
    have hsim : already_similar (Except.ok sink) ev.ts ev.username ev.ip ev.method
        (pyOrStr resolved_path (normalize_resource ev.resource)) object_id = true := by
      unfold already_similar
      by_cases ht : oidTruthy object_id = true
      · rw [if_pos ht] at h1
        apply Bool.or_eq_true_iff.mpr
        left
        rw [Bool.and_eq_true]
        refine ⟨ht, ?_⟩
        rw [List.any_eq_true]
        refine ⟨r, hmem, ?_⟩
        simp [similar_oid, h1, h2, h3, h4, h5]
      · rw [if_neg ht] at h1
        apply Bool.or_eq_true_iff.mpr
        right
        rw [List.any_eq_true]
        refine ⟨r, hmem, ?_⟩
        simp [similar_res, h1, h2, h3, h4, h5]
    rw [show (if (false = true) then Except.error () else Except.ok sink) = Except.ok sink
      from rfl]
    rw [if_pos hsim]

/-- Claim C3: idempotent persistence.  First conjunct: whenever the
sink already holds a row similar (in the claim's sense) to the
candidate, `_insert_event_db` skips and returns `False` with the sink
unchanged.  Second conjunct: inserting an event into an empty sink
and then inserting any second event similar to the stored row leaves
exactly the one `AuditRecord`. -/
theorem dedupe_idempotent_persistence :
    (∀ (sink : List AuditRecord) (ev : Event) (object_id : Option Nat)
        (resolved_path : Option String) (r : AuditRecord), r ∈ sink →
      claimAgrees r ev.ts ev.username ev.ip ev.method
        (pyOrStr resolved_path (normalize_resource ev.resource)) object_id →
      _insert_event_db ev object_id resolved_path false sink = (false, sink)) ∧
    (∀ (ev1 : Event) (oid1 : Option Nat) (path1 : Option String)
        (ev2 : Event) (oid2 : Option Nat) (path2 : Option String),
      pyUpper ev1.method ≠ "PROPFIND" →
      claimAgrees (mkAuditRecord ev1 oid1 path1) ev2.ts ev2.username ev2.ip ev2.method
        (pyOrStr path2 (normalize_resource ev2.resource)) oid2 →
      _insert_event_db ev1 oid1 path1 false [] = (true, [mkAuditRecord ev1 oid1 path1]) ∧
      _insert_event_db ev2 oid2 path2 false [mkAuditRecord ev1 oid1 path1] =
        (false, [mkAuditRecord ev1 oid1 path1])) := by
  constructor
  · intro sink ev object_id resolved_path r hmem hagr
    exact insert_skips_of_agrees sink ev object_id resolved_path r hmem hagr
  · intro ev1 oid1 path1 ev2 oid2 path2 h1 hagr
    constructor
    · unfold _insert_event_db
      rw [if_neg h1]
      simp [already_similar]
    · exact insert_skips_of_agrees _ ev2 oid2 path2 _ (List.mem_singleton_self _) hagr

/-- Witness for C3: two concrete events, identical up to a timestamp
one second apart and a different raw line, produce exactly one row. -/
theorem dedupe_idempotent_persistence_witness :
    _insert_event_db
      ⟨0, some "alice", "10.0.0.1", "GET", "/remote.php/dav/files/alice/r.pdf", 200,
        none, "ua", "-", "raw1"⟩ (some 42) (some "/alice/files/r.pdf") false [] =
      (true,
       [mkAuditRecord
         ⟨0, some "alice", "10.0.0.1", "GET", "/remote.php/dav/files/alice/r.pdf", 200,
           none, "ua", "-", "raw1"⟩ (some 42) (some "/alice/files/r.pdf")]) ∧
    _insert_event_db
      ⟨1, some "alice", "10.0.0.1", "GET", "/remote.php/dav/files/alice/r.pdf", 200,
        none, "ua", "-", "raw2"⟩ (some 42) none false
      [mkAuditRecord
        ⟨0, some "alice", "10.0.0.1", "GET", "/remote.php/dav/files/alice/r.pdf", 200,
          none, "ua", "-", "raw1"⟩ (some 42) (some "/alice/files/r.pdf")] =
      (false,
       [mkAuditRecord
         ⟨0, some "alice", "10.0.0.1", "GET", "/remote.php/dav/files/alice/r.pdf", 200,
           none, "ua", "-", "raw1"⟩ (some 42) (some "/alice/files/r.pdf")]) :=
  dedupe_idempotent_persistence.2 _ _ _ _ _ _ (by decide) (by decide)

/-! ### Claim C6 -/

theorem exists_of_findSome {α β : Type} {f : α → Option β} :
    ∀ {l : List α} {b : β}, l.findSome? f = some b → ∃ a, a ∈ l ∧ f a = some b := by
  intro l
  induction l with
  | nil => intro b h; simp at h
  | cons c t ih =>
    intro b h
    rw [List.findSome?_cons] at h
    cases hfc : f c with
    | some b2 =>
      rw [hfc] at h
      injection h with hb
      exact ⟨c, List.mem_cons_self c t, by rw [hfc, hb]⟩
    | none =>
      rw [hfc] at h
      obtain ⟨a, hm, hfa⟩ := ih h
      exact ⟨a, List.mem_cons_of_mem c hm, hfa⟩

/-- After a fresh upsert-and-prune, the exact-key lookup finds exactly
the upserted entry (the entries a `dictSet` keeps in front of the
written key all have different keys, and pruning preserves order). -/
theorem find_dictSet_filter (r u : String) (ts : Int) (p : CacheEntry → Bool)
    (hp : p ⟨r, u, ts⟩ = true) :
    ∀ (m : List CacheEntry),
      ((dictSet m r u ts).filter p).find? (fun e => e.key == r) = some ⟨r, u, ts⟩ := by
  intro m
  induction m with
  | nil =>
    simp [dictSet, List.filter, hp, List.find?]
  | cons e t ih =>
    by_cases he : e.key = r
    · simp [dictSet, he, List.filter, hp, List.find?]
    · simp only [dictSet, if_neg he]
      by_cases hpe : p e = true
      · rw [List.filter_cons_of_pos hpe, List.find?_cons_of_neg, ih]
        simp [he]
      · rw [List.filter_cons_of_neg (by simpa using hpe), ih]

/-- Claim C6: identity-cache freshness.  First conjunct: any username
`guess_username` returns comes from an entry of the cache that is
within `CORRELATION_WINDOW` of `now` and matches the queried resource
exactly or by substring containment — an expired entry is never
returned, neither by the exact lookup nor by the fallback scan.
Second conjunct: an entry recorded by `add_recent_action` (non-falsy
resource and user) and looked up under its exact key while still
within the window is returned. -/
theorem identity_cache_freshness :
    (∀ (m : List CacheEntry) (resource : String) (now : Int) (u : String),
      guess_username m resource now = some u →
      ∃ e, e ∈ m ∧ e.user = u ∧ now - e.ts ≤ CORRELATION_WINDOW ∧
        (e.key = resource ∨
         listContains e.key.data resource.data = true ∨
         listContains resource.data e.key.data = true)) ∧
    (∀ (m : List CacheEntry) (resource user : String) (ts now : Int),
      resource ≠ "" → user ≠ "" → now - ts ≤ CORRELATION_WINDOW →
      guess_username (add_recent_action m resource (some user) ts now) resource now =
        some user) := by
  constructor
  · intro m resource now u h
    unfold guess_username at h
    by_cases hr : resource = ""
    · rw [if_pos hr] at h
      exact absurd h (by simp)
    · rw [if_neg hr] at h
      have hscan : scanEntries m resource now = some u →
          ∃ e, e ∈ m ∧ e.user = u ∧ now - e.ts ≤ CORRELATION_WINDOW ∧
            (e.key = resource ∨
             listContains e.key.data resource.data = true ∨
             listContains resource.data e.key.data = true) := by
        intro hs
        obtain ⟨e, hm, hfe⟩ := exists_of_findSome hs
        by_cases hold : now - e.ts > CORRELATION_WINDOW
        · rw [if_pos hold] at hfe
          exact absurd hfe (by simp)
        · rw [if_neg hold] at hfe
          by_cases hsub : (listContains e.key.data resource.data ||
              listContains resource.data e.key.data) = true
          · rw [if_pos hsub] at hfe
            injection hfe with hu
            rcases Bool.or_eq_true_iff.mp hsub with h1 | h1
            · exact ⟨e, hm, hu, by omega, Or.inr (Or.inl h1)⟩
            · exact ⟨e, hm, hu, by omega, Or.inr (Or.inr h1)⟩
          · rw [if_neg hsub] at hfe
            exact absurd hfe (by simp)
      split at h
      · rename_i e hfind
        by_cases hfresh : now - e.ts ≤ CORRELATION_WINDOW
        · rw [if_pos hfresh] at h
          injection h with hu
          have hkey : e.key = resource := by
            have := List.find?_some hfind
            simpa using this
          exact ⟨e, List.mem_of_find?_eq_some hfind, hu, hfresh, Or.inl hkey⟩
        · rw [if_neg hfresh] at h
          exact hscan h
      · exact hscan h
  · intro m resource user ts now hr hu hfresh
    unfold add_recent_action
    rw [if_neg (by simp [hr, hu])]
    unfold guess_username
    rw [if_neg hr]
    simp only [Option.getD_some]
    rw [find_dictSet_filter resource user ts
      (fun e => !decide (e.ts < now - CORRELATION_WINDOW)) (by simp; omega) m]
    show (if now - ts ≤ CORRELATION_WINDOW then some user else _) = some user
    rw [if_pos hfresh]

/-- Witness for C6: record and immediately look up a concrete entry. -/
theorem identity_cache_freshness_witness :
    guess_username (add_recent_action [] "/f/a" (some "alice") 0 0) "/f/a" 0 =
      some "alice" :=
  identity_cache_freshness.2 [] "/f/a" "alice" 0 0 (by decide) (by decide) (by decide)

/-! ### Claim C5 -/

theorem isPrefixB_append_comma {n x y : List Char} (h : ',' ∉ n) :
    isPrefixB n (x ++ ',' :: y) = isPrefixB n x := by
  induction x generalizing n with
  | nil =>
    cases n with
    | nil => rfl
    | cons a as =>
      have ha : a ≠ ',' := fun hc => h (hc ▸ List.mem_cons_self a as)
      simp [isPrefixB, ha]
  | cons c xs ih =>
    cases n with
    | nil => rfl
    | cons a as =>
      have has : ',' ∉ as := fun hm => h (List.mem_cons_of_mem a hm)
      simp only [List.cons_append, isPrefixB, List.append_eq, ih has]

theorem listContains_append_comma {n x y : List Char} (h : ',' ∉ n) :
    listContains n (x ++ ',' :: y) = (listContains n x || listContains n y) := by
  induction x with
  | nil =>
    cases n with
    | nil => simp [listContains, isPrefixB]
    | cons a as =>
      have ha : a ≠ ',' := fun hc => h (hc ▸ List.mem_cons_self a as)
      simp [listContains, isPrefixB, ha]
  | cons c xs ih =>
    show (isPrefixB n ((c :: xs) ++ ',' :: y) || listContains n (xs ++ ',' :: y)) = _
    rw [isPrefixB_append_comma h, ih]
    show _ = (isPrefixB n (c :: xs) || listContains n xs || listContains n y)
    cases isPrefixB n (c :: xs) <;> simp [Bool.or_assoc]

theorem listContains_joinComma {n : List Char} (hc : ',' ∉ n) (hn : n ≠ []) :
    ∀ ks : List (List Char),
      listContains n (joinComma ks) = ks.any (fun k => listContains n k) := by
  intro ks
  induction ks with
  | nil =>
    simp [joinComma, listContains]
    intro hemp
    exact absurd hemp hn
  | cons k ks ih =>
    cases ks with
    | nil => simp [joinComma]
    | cons k2 ks2 =>
      rw [joinComma, listContains_append_comma hc, ih]
      simp

theorem lowerL_joinComma : ∀ ks : List (List Char),
    lowerL (joinComma ks) = joinComma (ks.map lowerL) := by
  intro ks
  induction ks with
  | nil => rfl
  | cons k ks ih =>
    cases ks with
    | nil => rfl
    | cons k2 ks2 =>
      simp only [joinComma, lowerL, List.map_append, List.map_cons,
        show Char.toLower ',' = ',' from rfl]
      rw [show (joinComma (k2 :: ks2)).map Char.toLower = lowerL (joinComma (k2 :: ks2)) from rfl,
        ih]
      rfl

/-- The key clause of the classifier, rephrased from the join over
all keys to an existential over the keys. -/
theorem joined_keys_clause (q : List Char) :
    listContains dlTok (lowerL (joinComma (parseQsKeys q))) =
      (parseQsKeys q).any (fun k => listContains dlTok (lowerL k)) := by
  rw [lowerL_joinComma, listContains_joinComma (by decide) (by decide), List.any_map]
  rfl

/-- The classifier as the claim words it: the same five-way
precedence, with the download token tested against the path and
against each query-parameter key. -/
def spec_classifier (method : String) (status : Int) (resource : String) : String :=
  let m := pyUpper method
  if listContains dlTok (lowerL (pathOf resource)) ||
      (parseQsKeys (queryOf resource)).any (fun k => listContains dlTok (lowerL k)) then
    "download"
  else if m == "PROPFIND" then "list"
  else if m == "GET" && status == 200 && fileExtSearch (pathOf resource) then "download"
  else if m == "GET" && status == 200 then "view"
  else "other"

/-- Claim C5: `detect_event_type` realizes exactly the claimed
precedence (proved as equality with the claim-side classifier for
every method, status and resource), and on the claim's concrete
cases: with GET/200, a path containing "download" that also matches a
file extension classifies as download via the first clause, a path
with a recognized extension and no download token classifies as
download via the extension clause, and a plain path as view. -/
theorem classifier_precedence :
    (∀ (method : String) (status : Int) (resource : String),
      detect_event_type method status resource = spec_classifier method status resource) ∧
    detect_event_type "GET" 200 "/d/download/report.pdf" = "download" ∧
    detect_event_type "GET" 200 "/d/report.pdf" = "download" ∧
    detect_event_type "GET" 200 "/d/report" = "view" ∧
    detect_event_type "PROPFIND" 207 "/remote.php/dav/files/alice" = "list" ∧
    detect_event_type "POST" 200 "/d/x" = "other" := by
  refine ⟨?_, by decide, by decide, by decide, by decide, by decide⟩
  intro method status resource
  unfold detect_event_type spec_classifier downloadCond
  rw [joined_keys_clause]

/-! ### Claim C10 -/

theorem isPrefixB_append {n : List Char} :
    ∀ {x : List Char} (y : List Char), isPrefixB n x = true → isPrefixB n (x ++ y) = true := by
  induction n with
  | nil => intro x y _; cases x <;> rfl
  | cons a as ih =>
    intro x y h
    cases x with
    | nil => exact absurd h (by simp [isPrefixB])
    | cons c t =>
      rw [List.cons_append]
      simp only [isPrefixB, Bool.and_eq_true] at h ⊢
      exact ⟨h.1, ih y h.2⟩

theorem listContains_append_left {n : List Char} :
    ∀ {x : List Char} (y : List Char),
      listContains n x = true → listContains n (x ++ y) = true := by
  intro x
  induction x with
  | nil =>
    intro y h
    simp only [listContains] at h
    have : n = [] := by simpa using h
    subst this
    cases y <;> simp [listContains, isPrefixB]
  | cons c t ih =>
    intro y h
    rw [List.cons_append]
    simp only [listContains, Bool.or_eq_true] at h ⊢
    rcases h with h | h
    · exact Or.inl (isPrefixB_append y h)
    · exact Or.inr (ih y h)

theorem listContains_drop {n : List Char} :
    ∀ (k : Nat) (l : List Char),
      listContains n (l.drop k) = true → listContains n l = true := by
  intro k
  induction k with
  | zero => intro l h; exact h
  | succ k ih =>
    intro l h
    cases l with
    | nil => exact h
    | cons c t =>
      rw [List.drop_succ_cons] at h
      simp only [listContains, Bool.or_eq_true]
      exact Or.inr (ih t h)

theorem contains_lower_prefix {n x l : List Char} (r : List Char) (hl : l = x ++ r)
    (h : listContains n (lowerL x) = true) : listContains n (lowerL l) = true := by
  subst hl
  rw [show lowerL (x ++ r) = lowerL x ++ lowerL r from List.map_append Char.toLower x r]
  exact listContains_append_left (lowerL r) h

theorem contains_lower_drop {n : List Char} (k : Nat) (l : List Char)
    (h : listContains n (lowerL (l.drop k)) = true) :
    listContains n (lowerL l) = true := by
  rw [show lowerL (l.drop k) = (lowerL l).drop k from List.map_drop Char.toLower l k] at h
  exact listContains_drop k (lowerL l) h

theorem contains_lower_takeWhile {n : List Char} (p : Char → Bool) (l : List Char)
    (h : listContains n (lowerL (l.takeWhile p)) = true) :
    listContains n (lowerL l) = true :=
  contains_lower_prefix (l.dropWhile p) (List.takeWhile_append_dropWhile p l).symm h

theorem contains_lower_splitParams {n : List Char} (l : List Char)
    (h : listContains n (lowerL (splitParams l)) = true) :
    listContains n (lowerL l) = true := by
  unfold splitParams at h
  by_cases hs : l.contains '/' = true
  · rw [if_pos hs] at h
    refine contains_lower_prefix
      ((l.drop (l.length - (l.reverse.takeWhile (fun c => c ≠ '/')).length)).dropWhile
        (fun c => c ≠ ';')) ?_ h
    rw [List.append_assoc, List.takeWhile_append_dropWhile, List.take_append_drop]
  · rw [if_neg hs] at h
    exact contains_lower_takeWhile _ l h

theorem contains_lower_splitScheme {n : List Char} (l : List Char)
    (h : listContains n (lowerL (splitScheme l)) = true) :
    listContains n (lowerL l) = true := by
  unfold splitScheme at h
  by_cases hc : ((l.takeWhile (fun c => c ≠ ':')).length < l.length &&
      !(l.takeWhile (fun c => c ≠ ':')).isEmpty &&
      (match l.takeWhile (fun c => c ≠ ':') with | c :: _ => c.isAlpha | [] => false) &&
      (l.takeWhile (fun c => c ≠ ':')).all schemeChar) = true
  · rw [if_pos hc] at h
    exact contains_lower_drop _ l h
  · rw [if_neg hc] at h
    exact h

theorem contains_lower_stripNetloc {n : List Char} (l : List Char)
    (h : listContains n (lowerL (stripNetloc l)) = true) :
    listContains n (lowerL l) = true := by
  unfold stripNetloc at h
  by_cases hc : l.take 2 = ['/', '/']
  · rw [if_pos hc] at h
    exact contains_lower_drop _ l h
  · rw [if_neg hc] at h
    exact h

/-- Any download token found in the classifier's path was present in
the string the classifier was applied to. -/
theorem contains_lower_pathOf {n : List Char} (s : String)
    (h : listContains n (lowerL (pathOf s)) = true) :
    listContains n (lowerL s.data) = true := by
  unfold pathOf at h
  by_cases hp : (urlPathQuery s.data).path.isEmpty = true
  · rw [if_pos hp] at h
    exact h
  · rw [if_neg hp] at h
    unfold urlPathQuery at h
    exact contains_lower_splitScheme s.data
      (contains_lower_stripNetloc _
        (contains_lower_takeWhile _ _
          (contains_lower_takeWhile _ _
            (contains_lower_splitParams _ h))))

theorem dropWhile_eq_nil_of {p : Char → Bool} :
    ∀ {l : List Char}, (∀ c ∈ l, p c = true) → l.dropWhile p = [] := by
  intro l
  induction l with
  | nil => intro _; rfl
  | cons c t ih =>
    intro h
    rw [List.dropWhile_cons, if_pos (h c (List.mem_cons_self c t))]
    exact ih fun x hx => h x (List.mem_cons_of_mem c hx)

theorem mem_of_mem_takeWhile {p : Char → Bool} {c : Char} :
    ∀ {l : List Char}, c ∈ l.takeWhile p → c ∈ l := by
  intro l
  induction l with
  | nil => intro h; exact h
  | cons a t ih =>
    intro h
    rw [List.takeWhile_cons] at h
    by_cases ha : p a = true
    · rw [if_pos ha] at h
      rcases List.mem_cons.mp h with h | h
      · exact h ▸ List.mem_cons_self a t
      · exact List.mem_cons_of_mem a (ih h)
    · rw [if_neg ha] at h
      exact absurd h (List.not_mem_nil c)

theorem mem_of_mem_splitScheme {c : Char} {l : List Char}
    (h : c ∈ splitScheme l) : c ∈ l := by
  unfold splitScheme at h
  by_cases hc : ((l.takeWhile (fun c => c ≠ ':')).length < l.length &&
      !(l.takeWhile (fun c => c ≠ ':')).isEmpty &&
      (match l.takeWhile (fun c => c ≠ ':') with | c :: _ => c.isAlpha | [] => false) &&
      (l.takeWhile (fun c => c ≠ ':')).all schemeChar) = true
  · rw [if_pos hc] at h
    exact List.mem_of_mem_drop h
  · rw [if_neg hc] at h
    exact h

theorem mem_of_mem_stripNetloc {c : Char} {l : List Char}
    (h : c ∈ stripNetloc l) : c ∈ l := by
  unfold stripNetloc at h
  by_cases hc : l.take 2 = ['/', '/']
  · rw [if_pos hc] at h
    exact List.mem_of_mem_drop h
  · rw [if_neg hc] at h
    exact h

/-- When the argument contains no `?` at all, the classifier sees an
empty query, hence no query-parameter keys. -/
theorem queryOf_eq_nil {s : String} (h : '?' ∉ s.data) : queryOf s = [] := by
  unfold queryOf urlPathQuery
  have h2 : ∀ c ∈ (stripNetloc (splitScheme s.data)).takeWhile (fun c => c ≠ '#'),
      (decide (c ≠ '?')) = true := by
    intro c hc
    simp only [decide_eq_true_eq]
    intro hcq
    subst hcq
    exact h (mem_of_mem_splitScheme (mem_of_mem_stripNetloc (mem_of_mem_takeWhile hc)))
  simp only []
  rw [dropWhile_eq_nil_of h2]
  rfl

theorem mem_rstripSlash {c : Char} {l : List Char} (h : c ∈ rstripSlash l) : c ∈ l := by
  unfold rstripSlash at h
  have : c ∈ l.reverse.dropWhile (fun c => c = '/') := List.mem_reverse.mp h
  have h2 : c ∈ l.reverse := by
    have hsplit := List.takeWhile_append_dropWhile (fun c : Char => c = '/') l.reverse
    rw [← hsplit]
    exact List.mem_append_right _ this
  exact List.mem_reverse.mp (by simpa using h2)

/-- Claim C10: the persisted event kind is computed from the
NORMALIZED resource.  First conjunct: the `event_type` stored by
`_insert_event_db` is the classifier applied to
`normalize_resource ev.resource`.  Second conjunct: when the raw
URL's pre-query part carries no "download" token (case-insensitively)
and no percent escape, the download clause of the classifier is false
on the normalized resource — a "download" appearing only in the raw
query string can never fire the query-parameter-key clause of the
persisted kind.  Third: a concrete contrast — on the raw URL the
classifier would say download, the persisted kind is view. -/
theorem classifier_uses_normalized_resource :
    (∀ (ev : Event) (object_id : Option Nat) (resolved_path : Option String),
      (mkAuditRecord ev object_id resolved_path).event_type =
        detect_event_type ev.method ev.status (normalize_resource ev.resource)) ∧
    (∀ ev : Event,
      listContains dlTok (lowerL (ev.resource.data.takeWhile (fun c => c ≠ '?'))) = false →
      '%' ∉ ev.resource.data.takeWhile (fun c => c ≠ '?') →
      downloadCond (normalize_resource ev.resource) = false) ∧
    detect_event_type "GET" 200 "/files/a?download=1" = "download" ∧
    (mkAuditRecord
      ⟨0, none, "10.0.0.1", "GET", "/files/a?download=1", 200, none, "ua", "-", "raw"⟩
      none none).event_type = "view" := by
  refine ⟨?_, ?_, by decide, by decide⟩
  · intro ev object_id resolved_path
    rfl
  · intro ev h1 h2
    by_cases hres : ev.resource = ""
    · rw [hres]
      decide
    · have hnorm : normalize_resource ev.resource =
          String.mk (rstripSlash (ev.resource.data.takeWhile (fun c => c ≠ '?'))) := by
        rw [normalize_resource, if_neg hres, unquoteChars_of_no_percent h2]
      rw [hnorm]
      have hdata : (String.mk (rstripSlash (ev.resource.data.takeWhile
          (fun c => c ≠ '?')))).data =
          rstripSlash (ev.resource.data.takeWhile (fun c => c ≠ '?')) := rfl
      have hq : '?' ∉ (String.mk (rstripSlash (ev.resource.data.takeWhile
          (fun c => c ≠ '?')))).data := by
        rw [hdata]
        intro hmem
        have := List.mem_takeWhile_imp (mem_rstripSlash hmem)
        simp at this
      unfold downloadCond
      rw [queryOf_eq_nil hq]
      have hpath : listContains dlTok (lowerL (pathOf (String.mk (rstripSlash
          (ev.resource.data.takeWhile (fun c => c ≠ '?')))))) = false := by
        by_contra hne
        have htrue : listContains dlTok (lowerL (pathOf (String.mk (rstripSlash
            (ev.resource.data.takeWhile (fun c => c ≠ '?')))))) = true := by
          revert hne
          cases listContains dlTok (lowerL (pathOf (String.mk (rstripSlash
            (ev.resource.data.takeWhile (fun c => c ≠ '?')))))) <;> simp
        have h3 := contains_lower_pathOf _ htrue
        rw [hdata] at h3
        have h4 : listContains dlTok
            (lowerL (ev.resource.data.takeWhile (fun c => c ≠ '?'))) = true := by
          refine contains_lower_prefix
            ((ev.resource.data.takeWhile (fun c => c ≠ '?')).reverse.takeWhile
              (fun c => c = '/')).reverse ?_ h3
          rw [show rstripSlash (ev.resource.data.takeWhile (fun c => c ≠ '?')) ++
              ((ev.resource.data.takeWhile (fun c => c ≠ '?')).reverse.takeWhile
                (fun c => c = '/')).reverse =
              (((ev.resource.data.takeWhile (fun c => c ≠ '?')).reverse.takeWhile
                  (fun c => c = '/')) ++
                ((ev.resource.data.takeWhile (fun c => c ≠ '?')).reverse.dropWhile
                  (fun c => c = '/'))).reverse from by
            rw [List.reverse_append]
            rfl]
          rw [List.takeWhile_append_dropWhile, List.reverse_reverse]
        rw [h1] at h4
        exact absurd h4 (by simp)
      rw [hpath]
      rfl

/-- Witness for C10's second conjunct at the concrete contrast event:
raw resource `/files/a?download=1`, whose pre-query part has no
download token and no escape, gives a false download clause on the
normalized resource. -/
theorem classifier_uses_normalized_resource_witness :
    downloadCond (normalize_resource "/files/a?download=1") = false :=
  classifier_uses_normalized_resource.2.1
    ⟨0, none, "10.0.0.1", "GET", "/files/a?download=1", 200, none, "ua", "-", "raw"⟩
    (by decide) (by decide)

/-! ### Claim C1 -/

theorem workerLoop_cases (oracle : Nat → IterOracle) (wait : Nat) (finalOk : Bool) :
    ∀ (f iter now : Nat) (uname : Option String),
      wait + 1 - now ≤ f → now = iter → iter ≤ wait + 1 →
      outIters (workerLoop oracle wait finalOk iter now uname) ≤ wait + 1 ∧
      ((∃ i, workerLoop oracle wait finalOk iter now uname =
              WorkerOutcome.insertedResolved i ∨
            workerLoop oracle wait finalOk iter now uname =
              WorkerOutcome.insertedEarly i) ∨
       (∃ i, workerLoop oracle wait finalOk iter now uname =
              WorkerOutcome.finalAttempt i finalOk)) := by
  intro f
  induction f with
  | zero =>
    intro iter now uname hf hinv hle
    have hng : ¬ now ≤ wait := by omega
    rw [workerLoop, if_neg hng]
    refine ⟨by simp [outIters]; omega, Or.inr ⟨iter, rfl⟩⟩
  | succ f ih =>
    intro iter now uname hf hinv hle
    by_cases hnow : now ≤ wait
    · rw [workerLoop, if_pos hnow]
      by_cases hA : ((oracle iter).dbOk && (oracle iter).dbUname.isSome &&
          (oracle iter).insertResolvedOk) = true
      · rw [if_pos hA]
        exact ⟨by simp [outIters]; omega, Or.inl ⟨iter, Or.inl rfl⟩⟩
      · rw [if_neg hA]
        by_cases hB : ((dbUpdate (oracle iter) (guessUpdate (oracle iter) uname)).isSome &&
            (oracle iter).insertEarlyOk) = true
        · rw [if_pos hB]
          exact ⟨by simp [outIters]; omega, Or.inl ⟨iter, Or.inr rfl⟩⟩
        · rw [if_neg hB]
          exact ih (iter + 1) (now + RESOLVE_INTERVAL) _
            (by simp [RESOLVE_INTERVAL]; omega)
            (by simp [RESOLVE_INTERVAL]; omega)
            (by omega)
    · rw [workerLoop, if_neg hnow]
      refine ⟨by simp [outIters]; omega, Or.inr ⟨iter, rfl⟩⟩

/-- Claim C1: every resolution worker terminates.  The polling
interval is positive; starting from time 0 with deadline
`start + wait`, the loop body runs at most `wait / RESOLVE_INTERVAL + 1`
times (it polls only while the clock is at most the deadline); and
every run ends in a terminal outcome — a successful persist inside
the loop (which, inside `_insert_event_db`, is an insert or a
duplicate skip) or the single unconditional final insert attempt
after the deadline.  No event is retried indefinitely. -/
theorem worker_terminates_bounded :
    0 < RESOLVE_INTERVAL ∧
    (∀ (oracle : Nat → IterOracle) (wait : Nat) (finalOk : Bool) (uname : Option String),
      outIters (workerLoop oracle wait finalOk 0 0 uname) ≤ wait / RESOLVE_INTERVAL + 1) ∧
    (∀ (oracle : Nat → IterOracle) (wait : Nat) (finalOk : Bool) (uname : Option String),
      (∃ i, workerLoop oracle wait finalOk 0 0 uname = WorkerOutcome.insertedResolved i ∨
            workerLoop oracle wait finalOk 0 0 uname = WorkerOutcome.insertedEarly i) ∨
      (∃ i, workerLoop oracle wait finalOk 0 0 uname =
              WorkerOutcome.finalAttempt i finalOk)) := by
  refine ⟨by decide, ?_, ?_⟩
  · intro oracle wait finalOk uname
    have h := (workerLoop_cases oracle wait finalOk (wait + 1) 0 0 uname
      (by omega) rfl (by omega)).1
    simpa [RESOLVE_INTERVAL, Nat.div_one] using h
  · intro oracle wait finalOk uname
    exact (workerLoop_cases oracle wait finalOk (wait + 1) 0 0 uname
      (by omega) rfl (by omega)).2

/-! ### Claim C2 -/

/-- Registry invariant: the running workers are exactly the pending
keys, and those keys are pairwise distinct. -/
def regInv (s : RegState) : Prop :=
  s.workers = s.pending.map Prod.fst ∧ (s.pending.map Prod.fst).Nodup

theorem map_fst_filter_ne (k : CanonicalKey) :
    ∀ l : List (CanonicalKey × PendingEntry),
      (l.filter fun kv => decide (kv.1 ≠ k)).map Prod.fst =
        (l.map Prod.fst).filter fun x => decide (x ≠ k) := by
  intro l
  induction l with
  | nil => rfl
  | cons kv t ih =>
    by_cases hk : kv.1 = k
    · rw [List.filter_cons, List.map_cons, List.filter_cons]
      simp only [hk, decide_not, decide_eq_true_eq]
      simpa using ih
    · rw [List.filter_cons, List.map_cons, List.filter_cons]
      simp only [decide_eq_true_eq]
      rw [if_pos (by simpa using hk), if_pos (by simpa using hk), List.map_cons, ih]

theorem erase_eq_filter_of_nodup (k : CanonicalKey) :
    ∀ l : List CanonicalKey, l.Nodup → l.erase k = l.filter fun x => decide (x ≠ k) := by
  intro l
  induction l with
  | nil => intro _; rfl
  | cons c t ih =>
    intro hnd
    rw [List.nodup_cons] at hnd
    by_cases hc : c = k
    · subst hc
      rw [List.erase_cons_head, List.filter_cons, if_neg (by simp)]
      exact (List.filter_eq_self.mpr fun a ha => by
        simp only [decide_eq_true_eq]
        intro hak
        exact hnd.1 (hak ▸ ha)).symm
    · rw [List.erase_cons_tail (by simpa using hc), List.filter_cons,
        if_pos (by simpa using hc), ih hnd.2]

theorem regInv_step (s : RegState) (op : RegOp) (h : regInv s) : regInv (regStep s op) := by
  obtain ⟨hw, hnd⟩ := h
  cases op with
  | schedule ev now =>
    show regInv (schedule_resolution_and_insert s ev now)
    unfold schedule_resolution_and_insert
    by_cases hig : ignoredResource (normalize_resource ev.resource) = true
    · rw [if_pos hig]
      exact ⟨hw, hnd⟩
    · rw [if_neg hig]
      cases hfind : s.pending.find? (fun kv => kv.1 == keyOf ev) with
      | some e =>
        have hcongr : s.pending.map (Prod.fst ∘ fun kv =>
            if kv.1 = keyOf ev then (kv.1, { kv.2 with last_seen := now }) else kv) =
            s.pending.map Prod.fst :=
          List.map_congr_left fun kv _ => by
            by_cases hk : kv.1 = keyOf ev
            · simp [hk]
            · simp [hk]
        refine ⟨?_, ?_⟩
        · show s.workers = (s.pending.map _).map Prod.fst
          rw [List.map_map, hcongr]
          exact hw
        · show ((s.pending.map _).map Prod.fst).Nodup
          rw [List.map_map, hcongr]
          exact hnd
      | none =>
        have hnotin : keyOf ev ∉ s.pending.map Prod.fst := by
          intro hmem
          obtain ⟨kv, hkv, hfst⟩ := List.mem_map.mp hmem
          have := List.find?_eq_none.mp hfind kv hkv
          simp [hfst] at this
        refine ⟨?_, ?_⟩
        · show s.workers ++ [keyOf ev] = (s.pending ++ [_]).map Prod.fst
          rw [List.map_append, hw]
          rfl
        · show ((s.pending ++ [_]).map Prod.fst).Nodup
          rw [List.map_append]
          rw [List.nodup_append]
          exact ⟨hnd, List.nodup_singleton _, by simpa using hnotin⟩
  | finish key =>
    show regInv (finishWorker s key)
    unfold finishWorker
    by_cases hmem : key ∈ s.workers
    · rw [if_pos hmem]
      refine ⟨?_, ?_⟩
      · show s.workers.erase key = (s.pending.filter _).map Prod.fst
        rw [map_fst_filter_ne, ← hw, erase_eq_filter_of_nodup key s.workers (hw ▸ hnd)]
      · show ((s.pending.filter _).map Prod.fst).Nodup
        rw [map_fst_filter_ne]
        exact List.Nodup.filter _ hnd
    · rw [if_neg hmem]
      exact ⟨hw, hnd⟩

theorem regInv_runOps : ∀ (ops : List RegOp) (s : RegState),
    regInv s → regInv (ops.foldl regStep s) := by
  intro ops
  induction ops with
  | nil => intro s h; exact h
  | cons op t ih =>
    intro s h
    exact ih (regStep s op) (regInv_step s op h)

/-- Claim C2: at most one worker per canonical key.  (1) In every
registry state reachable from empty by scheduling and worker
termination, each canonical key has at most one running worker.
(2) Scheduling an event (not ignore-listed) whose key is already
pending refreshes only `last_seen`: the worker set is unchanged (no
new worker), the pending keys are unchanged, and every entry's
`first_seen`, carried event and object id are unchanged — the
original carried event is retained.  (3) Scheduling a fresh key adds
exactly one pending entry carrying the event and its extracted id,
and starts exactly one worker.  (4) A terminating worker removes the
pending entry for its key and itself, whichever branch fired. -/
theorem registry_single_worker :
    (∀ (ops : List RegOp) (k : CanonicalKey), (runOps ops).workers.count k ≤ 1) ∧
    (∀ (s : RegState) (ev : Event) (now : Int),
      ignoredResource (normalize_resource ev.resource) = false →
      (s.pending.find? (fun kv => kv.1 == keyOf ev)).isSome = true →
      (schedule_resolution_and_insert s ev now).workers = s.workers ∧
      (schedule_resolution_and_insert s ev now).pending.map Prod.fst =
        s.pending.map Prod.fst ∧
      (schedule_resolution_and_insert s ev now).pending.map
          (fun kv => (kv.2.first_seen, kv.2.ev, kv.2.object_id)) =
        s.pending.map (fun kv => (kv.2.first_seen, kv.2.ev, kv.2.object_id))) ∧
    (∀ (s : RegState) (ev : Event) (now : Int),
      ignoredResource (normalize_resource ev.resource) = false →
      s.pending.find? (fun kv => kv.1 == keyOf ev) = none →
      (schedule_resolution_and_insert s ev now).pending =
        s.pending ++ [(keyOf ev, ⟨now, now, ev, maybeFidOf (keyOf ev)⟩)] ∧
      (schedule_resolution_and_insert s ev now).workers = s.workers ++ [keyOf ev]) ∧
    (∀ (s : RegState) (key : CanonicalKey), key ∈ s.workers →
      (finishWorker s key).pending.find? (fun kv => kv.1 == key) = none ∧
      (finishWorker s key).workers = s.workers.erase key) := by
  refine ⟨?_, ?_, ?_, ?_⟩
  · intro ops k
    have hinv : regInv (runOps ops) :=
      regInv_runOps ops ⟨[], []⟩ ⟨rfl, List.nodup_nil⟩
    have hnd : (runOps ops).workers.Nodup := hinv.1 ▸ hinv.2
    exact List.nodup_iff_count_le_one.mp hnd k
  · intro s ev now hig hfs
    obtain ⟨e, hfind⟩ := Option.isSome_iff_exists.mp hfs
    unfold schedule_resolution_and_insert
    rw [if_neg (by simp [hig]), hfind]
    refine ⟨rfl, ?_, ?_⟩
    · rw [List.map_map]
      refine List.map_congr_left fun kv _ => ?_
      by_cases hk : kv.1 = keyOf ev
      · simp [hk]
      · simp [hk]
    · rw [List.map_map]
      refine List.map_congr_left fun kv _ => ?_
      by_cases hk : kv.1 = keyOf ev
      · simp [hk]
      · simp [hk]
  · intro s ev now hig hfind
    unfold schedule_resolution_and_insert
    rw [if_neg (by simp [hig]), hfind]
    exact ⟨rfl, rfl⟩
  · intro s key hmem
    unfold finishWorker
    rw [if_pos hmem]
    refine ⟨?_, rfl⟩
    rw [List.find?_eq_none]
    intro kv hkv
    have := List.of_mem_filter hkv
    simp only [decide_eq_true_eq] at this
    simpa using this

/-- Witness for C2: schedule the same event twice and finish its
worker — one worker while pending, key gone afterwards. -/
theorem registry_single_worker_witness :
    ((schedule_resolution_and_insert
        (runOps [RegOp.schedule
          ⟨0, none, "1.1.1.1", "GET", "/remote.php/dav/files/alice/r.pdf", 200,
            none, "ua", "-", "raw"⟩ 0])
        ⟨0, none, "1.1.1.1", "GET", "/remote.php/dav/files/alice/r.pdf", 200,
          none, "ua", "-", "raw"⟩ 5).workers =
      (runOps [RegOp.schedule
        ⟨0, none, "1.1.1.1", "GET", "/remote.php/dav/files/alice/r.pdf", 200,
          none, "ua", "-", "raw"⟩ 0]).workers) ∧
    (runOps [RegOp.schedule
      ⟨0, none, "1.1.1.1", "GET", "/remote.php/dav/files/alice/r.pdf", 200,
        none, "ua", "-", "raw"⟩ 0]).workers.count
      (keyOf ⟨0, none, "1.1.1.1", "GET", "/remote.php/dav/files/alice/r.pdf", 200,
        none, "ua", "-", "raw"⟩) ≤ 1 := by
  constructor
  · exact (registry_single_worker.2.1 _ _ 5 (by decide) (by decide)).1
  · exact registry_single_worker.1 _ _

end Audit
